import Mathlib

/-!
Verification of the fezi HTTP client library (packages/client and
packages/tanstack-react) against its specification.

The development shallowly embeds the TypeScript source:
- JSON-like runtime values are modelled by the inductive type JValue;
- JavaScript truthiness, string coercion and object spread are modelled
  explicitly where the source relies on them;
- the fetch transport is an explicit parameter: each request either yields
  a raw response or throws an exception (Except);
- thrown JavaScript exceptions are modelled by the type Exn, with FeziError
  (the library's Error subclass) as a distinguished constructor.
-/

set_option maxRecDepth 10000

namespace Fezi

/-- JSON-like JavaScript runtime values (body payloads, parsed responses). -/
inductive JValue where
  | jnull
  | jbool (b : Bool)
  | jnum (n : Int)
  | jstr (s : String)
  | jarr (elems : List JValue)
  | jobj (fields : List (String × JValue))

/-- JavaScript truthiness of a JValue: null, false, 0 and the empty string
are falsy, everything else (including every object and array) is truthy. -/
def JValue.truthy : JValue → Bool
  | .jnull => false
  | .jbool b => b
  | .jnum n => n != 0
  | .jstr s => !s.isEmpty
  | .jarr _ => true
  | .jobj _ => true

/-- Truthiness of an optional value (none models an absent / undefined field). -/
def optTruthy : Option JValue → Bool
  | none => false
  | some v => v.truthy

/-- Truthiness of an optional string-valued field (the empty string is falsy,
an absent field is falsy). Models checks such as `if (config.path)`. -/
def optStrTruthy : Option String → Bool
  | none => false
  | some s => !s.isEmpty

/-- JavaScript `a || d` for an optional string a: the string when present and
truthy (non-empty), else the default. -/
def jsOrStr (a : Option String) (d : String) : String :=
  match a with
  | some s => if s.isEmpty then d else s
  | none => d

/-- Values admissible in the params mapping of a request:
string | number | boolean | null | undefined. -/
inductive ParamValue where
  | pstr (s : String)
  | pnum (n : Int)
  | pbool (b : Bool)
  | pnull
  | pundef
deriving BEq, Repr, DecidableEq

/-- JavaScript String(value) coercion for the non-null, non-undefined
param values appended to the query string. -/
def ParamValue.coerceString : ParamValue → String
  | .pstr s => s
  | .pnum n => toString n
  | .pbool true => "true"
  | .pbool false => "false"
  | .pnull => "null"
  | .pundef => "undefined"

/-- Does the string end with the given suffix (String.prototype.endsWith,
stated on the character lists so that it evaluates definitionally). -/
def strEndsWith (s pat : String) : Bool :=
  decide (pat.toList <:+ s.toList)

/-- Does the string start with the given first part (String.prototype.startsWith,
stated on the character lists so that it evaluates definitionally). -/
def strStartsWith (s pat : String) : Bool :=
  decide (pat.toList <+: s.toList)

/-- One hexadecimal digit (uppercase), for percent-encoding. -/
def hexDigit (n : Nat) : Char :=
  "0123456789ABCDEF".toList.getD n '0'

/-- The UTF-8 encoding of a character as a list of byte values. -/
def utf8Bytes (c : Char) : List Nat :=
  let n := c.toNat
  if n < 128 then [n]
  else if n < 2048 then [192 + n / 64, 128 + n % 64]
  else if n < 65536 then [224 + n / 4096, 128 + (n / 64) % 64, 128 + n % 64]
  else [240 + n / 262144, 128 + (n / 4096) % 64, 128 + (n / 64) % 64, 128 + n % 64]

/-- Percent-encode a single byte value as %XX (uppercase hex). -/
def percentByte (b : Nat) : String :=
  String.mk ['%', hexDigit (b / 16), hexDigit (b % 16)]

/-- application/x-www-form-urlencoded serialization of one character, as
performed by URLSearchParams: alphanumerics and * - . _ are kept, a space
becomes +, every other character is percent-encoded byte-wise (UTF-8). -/
def formEncodeChar (c : Char) : String :=
  if c = ' ' then "+"
  else if c.isAlphanum || c = '*' || c = '-' || c = '.' || c = '_' then String.singleton c
  else String.join ((utf8Bytes c).map percentByte)

/-- application/x-www-form-urlencoded serialization of a string. -/
def formEncode (s : String) : String :=
  String.join (s.toList.map formEncodeChar)

/-- URLSearchParams.toString(): the accumulated (key, value) pairs joined by
ampersands, both components form-encoded. -/
def searchParamsToString (ps : List (String × String)) : String :=
  String.intercalate "&" (ps.map fun kv => formEncode kv.1 ++ "=" ++ formEncode kv.2)

/-- RequestConfig: per-endpoint request configuration (endpoint.ts). -/
structure RequestConfigM where
  path : Option String := none
  method : Option String := none
  headers : Option (List (String × String)) := none
  timeout : Option Nat := none
deriving Repr

/-- The default headers option of the client: a static mapping, a synchronous
producer function, or an asynchronous producer (the first client variant
awaits it; the model carries the resolved mapping the await yields). -/
inductive HeadersSource where
  | staticH (h : List (String × String))
  | producer (f : Unit → List (String × String))
  | asyncProducer (f : Unit → List (String × String))

/-- APIClientOptions: url, optional default headers, default timeout
(10000 set in the constructor), optional basePath (client.ts). -/
structure APIClientOptionsM where
  url : String
  headers : Option HeadersSource := none
  timeout : Option Nat := some 10000
  basePath : Option String := none

/-- The argument of APIClient.execute: the endpoint's RequestConfig spread
together with the per-call body and params. -/
structure ExecConfig where
  path : Option String := none
  method : Option String := none
  headers : Option (List (String × String)) := none
  timeout : Option Nat := none
  body : Option JValue := none
  params : Option (List (String × ParamValue)) := none

/-- JavaScript s.slice(0, -1): the string without its last character. -/
def strDropLast (s : String) : String :=
  String.mk s.toList.dropLast

/-- The base-url normalization of APIClient.buildUrl:
`url.endsWith("/") ? url.slice(0, -1) : url`. -/
def normalizeBaseUrl (opts : APIClientOptionsM) : String :=
  if strEndsWith opts.url "/" then strDropLast opts.url else opts.url

/-- APIClient.buildUrl: strips one trailing slash from the base url, appends
the basePath and the path each with a leading slash enforced, then appends
the query string built from params, skipping null/undefined values, using
String coercion for the rest, in mapping iteration order; the ? is only
added when the query string is non-empty. -/
def buildUrl (opts : APIClientOptionsM) (config : ExecConfig) : String :=
  let url1 := normalizeBaseUrl opts
  let url2 :=
    if optStrTruthy opts.basePath then
      let bp := (opts.basePath).getD ""
      url1 ++ (if strStartsWith bp "/" then bp else "/" ++ bp)
    else url1
  let url3 :=
    if optStrTruthy config.path then
      let p := (config.path).getD ""
      url2 ++ (if strStartsWith p "/" then p else "/" ++ p)
    else url2
  match config.params with
  | some ps =>
    if ps.length > 0 then
      let searchParams := ps.foldl (fun acc kv =>
        match kv.2 with
        | .pnull => acc
        | .pundef => acc
        | v => acc ++ [(kv.1, v.coerceString)]) []
      let queryString := searchParamsToString searchParams
      if queryString.isEmpty then url3 else url3 ++ "?" ++ queryString
    else url3
  | none => url3

/-- JavaScript property assignment on an object modelled as an assoc list:
if the key is present its value is replaced in place, otherwise the pair is
appended (insertion order preserved, later assignments override). -/
def recordSet (m : List (String × String)) (k v : String) : List (String × String) :=
  if m.any (fun kv => kv.1 = k) then
    m.map (fun kv => if kv.1 = k then (k, v) else kv)
  else m ++ [(k, v)]

/-- JavaScript object spread: assign every entry of the spread object onto
the base, in order. -/
def recordSpread (base : List (String × String)) (entries : List (String × String)) :
    List (String × String) :=
  entries.foldl (fun acc kv => recordSet acc kv.1 kv.2) base

/-- First-match lookup in an object modelled as an assoc list (property read). -/
def recordGet (m : List (String × String)) (k : String) : Option String :=
  match m with
  | [] => none
  | kv :: rest => if kv.1 = k then some kv.2 else recordGet rest k

/-- Resolution of the defaultHeaders option inside mergeHeaders:
`typeof headers === "function" ? await headers() : headers || {}`. -/
def resolveDefaultHeaders : Option HeadersSource → List (String × String)
  | some (.staticH h) => h
  | some (.producer f) => f ()
  | some (.asyncProducer f) => f ()
  | none => []

/-- APIClient.mergeHeaders: the object literal
`{ "Content-Type": "application/json", ...defaultHeaders, ...requestHeaders }`,
later spreads overriding earlier entries. -/
def mergeHeaders (opts : APIClientOptionsM) (requestHeaders : Option (List (String × String))) :
    List (String × String) :=
  let defaultHeaders := resolveDefaultHeaders opts.headers
  recordSpread (recordSpread [("Content-Type", "application/json")] defaultHeaders)
    (requestHeaders.getD [])

/-- JavaScript String(x) coercion (used when a thrown value is not an Error). -/
def jsToString : JValue → String
  | .jnull => "null"
  | .jbool true => "true"
  | .jbool false => "false"
  | .jnum n => toString n
  | .jstr s => s
  | .jarr _ => ""
  | .jobj _ => "[object Object]"

/-- JSON string escaping for JSON.stringify (quotes, backslash, newlines). -/
def jsonEscapeChar (c : Char) : String :=
  if c = '"' then "\\\""
  else if c = '\\' then "\\\\"
  else if c = '\n' then "\\n"
  else if c = '\t' then "\\t"
  else if c = '\r' then "\\r"
  else String.singleton c

/-- JSON.stringify of a JValue. -/
def jsonStringify : JValue → String
  | .jnull => "null"
  | .jbool true => "true"
  | .jbool false => "false"
  | .jnum n => toString n
  | .jstr s => "\"" ++ String.join (s.toList.map jsonEscapeChar) ++ "\""
  | .jarr elems => "[" ++ String.intercalate "," (jsonStringifyList elems) ++ "]"
  | .jobj fields => "\x7b" ++ String.intercalate "," (jsonStringifyFields fields) ++ "\x7d"
where
  jsonStringifyList : List JValue → List String
    | [] => []
    | v :: rest => jsonStringify v :: jsonStringifyList rest
  jsonStringifyFields : List (String × JValue) → List String
    | [] => []
    | (k, v) :: rest =>
      ("\"" ++ String.join (k.toList.map jsonEscapeChar) ++ "\":" ++ jsonStringify v)
        :: jsonStringifyFields rest

/-- FeziOptions: the request init produced by buildOptions and consumed by
fetchRequest (method, timeout, merged headers, optional serialized body,
optional parseJson flag). -/
structure FeziOptionsM where
  method : String
  timeout : Option Nat := none
  headers : List (String × String) := []
  body : Option String := none
  parseJson : Option Bool := none

/-- APIClient.buildOptions: effective method is `config.method || "GET"`,
timeout is `config.timeout ?? options.timeout`, headers come from
mergeHeaders; the body is JSON-serialized only when config.body is truthy
and the effective method is not in the (case-sensitive) list GET, HEAD. -/
def buildOptions (opts : APIClientOptionsM) (config : ExecConfig) : FeziOptionsM :=
  let method := jsOrStr config.method "GET"
  let base : FeziOptionsM :=
    { method := method
      timeout := match config.timeout with
        | some t => some t
        | none => opts.timeout
      headers := mergeHeaders opts config.headers }
  if optTruthy config.body && !(["GET", "HEAD"].contains method) then
    { base with body := some (jsonStringify ((config.body).getD .jnull)) }
  else base

/-- The two shapes passed as the options argument of the FeziError
constructor: the built FeziOptions (client.ts call sites) or the endpoint's
RequestConfig (the catch block of Endpoint.execute). -/
inductive ErrOptions where
  | fetchOpts (o : FeziOptionsM)
  | reqConfig (c : RequestConfigM)

/-- A raw HTTP response as consumed from the transport: status, ok flag,
headers, the content-type header value, the result of response.json()
(which may reject on malformed JSON) and the result of response.text(). -/
structure RawResponse where
  status : Nat
  ok : Bool
  headers : List (String × String) := []
  contentType : Option String := none
  json : Except String JValue := .error "Unexpected end of JSON input"
  text : String := ""

/-- FeziError: the library's Error subclass. The constructor always stores
message, url and options; status/headers/response are only set when a
response argument is passed and data when a data argument is passed — no
call site in the client or endpoint passes either, so wrapping leaves
status = none. -/
structure FeziErrorM where
  message : String
  url : String
  options : ErrOptions
  status : Option Nat := none
  data : Option JValue := none

/-- A thrown JavaScript exception: a FeziError instance, some other Error
instance (carrying its message), or a thrown non-Error value. -/
inductive Exn where
  | fezi (e : FeziErrorM)
  | jsError (message : String)
  | jsValue (v : JValue)

/-- The message string used when wrapping a caught exception:
`error instanceof Error ? error.message : String(error)`. -/
def Exn.wrapMessage : Exn → String
  | .fezi e => e.message
  | .jsError m => m
  | .jsValue v => jsToString v

/-- FeziResponse: the record fetchRequest produces for any received HTTP
response. -/
structure FeziResponseM where
  data : JValue
  error : Option FeziErrorM
  status : Nat
  headers : List (String × String)
  ok : Bool
  response : RawResponse

/-- Substring containment on the underlying character lists (models
String.prototype.includes). -/
def strContainsSub (hay pat : String) : Bool :=
  decide (pat.toList <:+: hay.toList)

/-- Does the response's content-type header contain "application/json"? -/
def contentTypeIsJson (r : RawResponse) : Bool :=
  match r.contentType with
  | some ct => strContainsSub ct "application/json"
  | none => false

/-- APIClient.fetchRequest: awaits the transport; on any received response
it decodes the body (JSON when parseJson is not explicitly false and the
content-type contains "application/json", text otherwise) and returns
{data, error: null, status, headers, ok, response}; any exception thrown
during the fetch or the body decode is wrapped into a FeziError carrying
the url and the request options, and the wrapped error is thrown. -/
def fetchRequest (url : String) (options : FeziOptionsM)
    (fetchOutcome : Except Exn RawResponse) : Except Exn FeziResponseM :=
  match fetchOutcome with
  | .error e =>
    .error (.fezi { message := e.wrapMessage, url := url, options := .fetchOpts options })
  | .ok response =>
    let parseJson := options.parseJson != some false
    if parseJson && contentTypeIsJson response then
      match response.json with
      | .ok data =>
        .ok { data := data, error := none, status := response.status,
              headers := response.headers, ok := response.ok, response := response }
      | .error msg =>
        .error (.fezi { message := msg, url := url, options := .fetchOpts options })
    else
      .ok { data := .jstr response.text, error := none, status := response.status,
            headers := response.headers, ok := response.ok, response := response }

/-- APIClient.execute: builds the URL and options, performs fetchRequest,
rethrows FeziError exceptions unchanged and wraps any other exception into
a FeziError carrying the built URL and options. -/
def clientExecute (opts : APIClientOptionsM) (config : ExecConfig)
    (fetchOutcome : Except Exn RawResponse) : Except Exn FeziResponseM :=
  let url := buildUrl opts config
  let options := buildOptions opts config
  match fetchRequest url options fetchOutcome with
  | .ok r => .ok r
  | .error e =>
    match e with
    | .fezi f => .error (.fezi f)
    | e => .error (.fezi { message := e.wrapMessage, url := url, options := .fetchOpts options })

/-- The {value} record returned by validate / validateSync capabilities. -/
structure ValidateResult where
  value : JValue

/-- A schema adapter: at most one of the four capabilities is invoked by
validateWithSchema, in the fixed priority order
parse > validate > validateSync > cast. Each capability may throw. -/
structure SchemaM where
  parse : Option (JValue → Except Exn JValue) := none
  validate : Option (JValue → Except Exn ValidateResult) := none
  validateSync : Option (JValue → Except Exn ValidateResult) := none
  cast : Option (JValue → Except Exn JValue) := none

/-- validateWithSchema (schema.ts): with performValidation false the data is
returned unchanged; otherwise the first present capability is invoked
(parse, then validate, then validateSync, then cast), and with no
capability the data is returned unchanged. Exceptions propagate. -/
def validateWithSchema (data : JValue) (schema : SchemaM) (performValidation : Bool) :
    Except Exn JValue :=
  if !performValidation then .ok data
  else
    match schema.parse with
    | some f => f data
    | none =>
      match schema.validate with
      | some f => (f data).map (fun r => r.value)
      | none =>
        match schema.validateSync with
        | some f => (f data).map (fun r => r.value)
        | none =>
          match schema.cast with
          | some f => f data
          | none => .ok data

/-- An Endpoint: its accumulated RequestConfig and optional input/output
schemas. (The client reference is passed explicitly to execute.) -/
structure EndpointM where
  config : RequestConfigM := {}
  inputSchema : Option SchemaM := none
  outputSchema : Option SchemaM := none

/-- The spread `{...this.config, body, params}` handed to APIClient.execute. -/
def spreadConfig (c : RequestConfigM) (body : Option JValue)
    (params : Option (List (String × ParamValue))) : ExecConfig :=
  { path := c.path, method := c.method, headers := c.headers, timeout := c.timeout,
    body := body, params := params }

/-- Step 1 of Endpoint.execute, outside the try region: when the input is
truthy and an input schema is set, the input is replaced by the schema's
validation result; a thrown validation exception propagates uncaught. -/
def validateInputStep (ep : EndpointM) (input : Option JValue) : Except Exn (Option JValue) :=
  if optTruthy input && ep.inputSchema.isSome then
    match input, ep.inputSchema with
    | some i, some s => (validateWithSchema i s true).map some
    | _, _ => .ok input
  else .ok input

/-- The wrapping performed by the catch block of Endpoint.execute: a caught
FeziError is kept as-is, any other exception is wrapped into a FeziError
whose url is `config.path || ""` and whose options is the RequestConfig. -/
def endpointWrapError (ep : EndpointM) (e : Exn) : FeziErrorM :=
  match e with
  | .fezi f => f
  | e =>
    { message := e.wrapMessage, url := jsOrStr ep.config.path "", options := .reqConfig ep.config }

/-- `typeof feziError.status === "number" ? feziError.status : 500`. -/
def errorStatusOf (f : FeziErrorM) : Nat :=
  match f.status with
  | some n => n
  | none => 500

/-- The record returned by Endpoint.execute. -/
structure EndpointResponseM where
  data : Option JValue
  error : Option FeziErrorM
  status : Nat

/-- Endpoint.execute: input validation first (outside the try region), then
inside the try region the client call and the optional output-schema
validation; on success {data, error: null, status}; any exception from the
try region is wrapped by endpointWrapError and converted into
{data: null, error, status = error.status when a number, else 500}.
A result of .error models the returned promise rejecting. -/
def endpointExecute (client : APIClientOptionsM) (ep : EndpointM)
    (input : Option JValue) (params : Option (List (String × ParamValue)))
    (fetchOutcome : Except Exn RawResponse) : Except Exn EndpointResponseM :=
  match validateInputStep ep input with
  | .error e => .error e
  | .ok validatedInput =>
    let tryResult : Except Exn (JValue × Nat) :=
      match clientExecute client (spreadConfig ep.config validatedInput params) fetchOutcome with
      | .error e => .error e
      | .ok response =>
        match ep.outputSchema with
        | some s =>
          match validateWithSchema response.data s true with
          | .error e => .error e
          | .ok data => .ok (data, response.status)
        | none => .ok (response.data, response.status)
    match tryResult with
    | .ok (data, status) => .ok { data := some data, error := none, status := status }
    | .error e =>
      let feziError := endpointWrapError ep e
      .ok { data := none, error := some feziError, status := errorStatusOf feziError }

/-- Primitive (non-object, non-null) JavaScript values that may sit in a
router mapping besides endpoints and nested mappings. -/
inductive PrimV where
  | pnum (n : Int)
  | pstr (s : String)
  | pbool (b : Bool)
  | pundef
deriving DecidableEq, Repr

/-- A value of a RouterNode mapping: an Endpoint, a nested mapping, null
(typeof null is "object"), or a primitive of any other type. -/
inductive RouterVal where
  | endpoint (e : EndpointM)
  | node (children : List (String × RouterVal))
  | jsnull
  | prim (v : PrimV)

/-- A value of the tree produced by createClientAPI: a bound call function
(capturing the endpoint whose execute it forwards to) or a nested tree.
The prim constructor exists so that the pass-through behavior the spec
describes is expressible; the composer never actually produces it. -/
inductive APIVal where
  | call (e : EndpointM)
  | node (children : List (String × APIVal))
  | prim (v : PrimV)

/-- createClientAPI (router.ts, as reproduced in the client test suite):
for each key, an Endpoint value becomes a bound call; a value of typeof
"object" is recursed into (null included: iterating null yields the empty
mapping); any other value is skipped — its key is absent from the result. -/
def createClientAPI : List (String × RouterVal) → List (String × APIVal)
  | [] => []
  | (k, .endpoint e) :: rest => (k, .call e) :: createClientAPI rest
  | (k, .node cs) :: rest => (k, .node (createClientAPI cs)) :: createClientAPI rest
  | (k, .jsnull) :: rest => (k, .node []) :: createClientAPI rest
  | (_, .prim _) :: rest => createClientAPI rest

/-- First-match property read on a router mapping. -/
def routerGet : List (String × RouterVal) → String → Option RouterVal
  | [], _ => none
  | kv :: rest, k => if kv.1 = k then some kv.2 else routerGet rest k

/-- First-match property read on a composed tree. -/
def apiGet : List (String × APIVal) → String → Option APIVal
  | [], _ => none
  | kv :: rest, k => if kv.1 = k then some kv.2 else apiGet rest k

/-- What one router value becomes under the composer: Endpoint to bound
call, mapping to composed mapping, null to empty mapping, primitive to
nothing (dropped). -/
def composeVal : RouterVal → Option APIVal
  | .endpoint e => some (.call e)
  | .node cs => some (.node (createClientAPI cs))
  | .jsnull => some (.node [])
  | .prim _ => none

/-- Applying a composed tree value as the bound function
(input?, params?) => endpoint.execute(input, params): only a call value is
callable, and calling it runs the captured endpoint's execute. -/
def APIVal.runCall (client : APIClientOptionsM) (a : APIVal) (input : Option JValue)
    (params : Option (List (String × ParamValue))) (fo : Except Exn RawResponse) :
    Option (Except Exn EndpointResponseM) :=
  match a with
  | .call e => some (endpointExecute client e input params fo)
  | _ => none

/-- An element of a TanStack query key: a path segment string or the
canonicalized params object. -/
inductive KeyElem where
  | str (s : String)
  | pobj (ps : List (String × JValue))

/-- First-match lookup in a params object modelled as an assoc list. -/
def jlookup : List (String × JValue) → String → Option JValue
  | [], _ => none
  | kv :: rest, k => if kv.1 = k then some kv.2 else jlookup rest k

/-- enhanceEndpoint.getKey (tanstack-react/src/index.ts): the accumulated
path segments; when params is non-empty, one extra element holding the
params rebuilt by iterating Object.keys(params).sort() and copying each
value over — a mapping with keys in sorted order. -/
def getKey (path : List String) (params : Option (List (String × JValue))) : List KeyElem :=
  match params with
  | some ps =>
    if ps.length > 0 then
      let sortedKeys := List.insertionSort (fun a b => a ≤ b) (ps.map Prod.fst)
      let sortedParams := sortedKeys.foldl (fun acc k =>
        match jlookup ps k with
        | some v => acc ++ [(k, v)]
        | none => acc) []
      (path.map KeyElem.str) ++ [KeyElem.pobj sortedParams]
    else path.map KeyElem.str
  | none => path.map KeyElem.str

/-- The own properties a TanStack-enhanced endpoint can carry: the data
fields copied from the Endpoint instance by the object spread, and the
three added closures (each recorded with what it captures). -/
inductive EnhPropV where
  | clientRef
  | configV (c : RequestConfigM)
  | schemaV (s : SchemaM)
  | queryOptionsFn (captured : EndpointM) (path : List String)
  | mutationOptionsFn (captured : EndpointM)
  | getKeyFn (path : List String)

/-- The own (instance) properties of an Endpoint object: client and config
are assigned at construction; inputSchema/outputSchema only exist once
input()/output() has been called. The class methods — input, output, path,
method, headers, execute — live on the prototype and are not own
properties. -/
def endpointOwnProps (e : EndpointM) : List (String × EnhPropV) :=
  [("client", .clientRef), ("config", .configV e.config)]
    ++ (match e.inputSchema with
        | some s => [("inputSchema", .schemaV s)]
        | none => [])
    ++ (match e.outputSchema with
        | some s => [("outputSchema", .schemaV s)]
        | none => [])

/-- The methods of the Endpoint class, found on the prototype, not copied
by an object spread. -/
def endpointProtoMethods : List String :=
  ["input", "output", "path", "method", "headers", "execute"]

/-- Property assignment on an enhanced-endpoint object. -/
def propSet (m : List (String × EnhPropV)) (k : String) (v : EnhPropV) :
    List (String × EnhPropV) :=
  if m.any (fun kv => kv.1 = k) then
    m.map (fun kv => if kv.1 = k then (k, v) else kv)
  else m ++ [(k, v)]

/-- First-match property read on an enhanced-endpoint object (plain object,
its prototype chain holds no Endpoint methods). -/
def propGet : List (String × EnhPropV) → String → Option EnhPropV
  | [], _ => none
  | kv :: rest, k => if kv.1 = k then some kv.2 else propGet rest k

/-- enhanceEndpoint (tanstack-react/src/index.ts): a shallow copy of the
endpoint's own enumerable properties (the spread), then assignment of
queryOptions, mutationOptions and getKey, each a closure capturing the
original endpoint (and the key path). -/
def enhanceEndpoint (e : EndpointM) (path : List String) : List (String × EnhPropV) :=
  propSet (propSet (propSet (endpointOwnProps e)
    "queryOptions" (.queryOptionsFn e path))
    "mutationOptions" (.mutationOptionsFn e))
    "getKey" (.getKeyFn path)

/-- The record produced by the enhanced endpoint's queryOptions: the
passthrough options, the query key (custom or the path), and the queryFn
closure represented by what it captures. -/
structure QueryOptsM where
  passthrough : List (String × JValue) := []
  queryKey : List KeyElem
  queryFnEndpoint : EndpointM
  queryFnInput : Option JValue
  queryFnUrlParams : Option (List (String × ParamValue))

/-- queryOptions(config?): destructures input, urlParams and queryKey out of
the config, keeps the rest, defaults the query key to the path, and builds
a queryFn closing over the original endpoint, input and urlParams. -/
def queryOptionsImpl (captured : EndpointM) (path : List String) (input : Option JValue)
    (urlParams : Option (List (String × ParamValue))) (customQueryKey : Option (List KeyElem))
    (rest : List (String × JValue)) : QueryOptsM :=
  { passthrough := rest,
    queryKey := match customQueryKey with
      | some qk => qk
      | none => path.map KeyElem.str,
    queryFnEndpoint := captured, queryFnInput := input, queryFnUrlParams := urlParams }

/-- The record produced by the enhanced endpoint's mutationOptions. -/
structure MutationOptsM where
  passthrough : List (String × JValue) := []
  mutFnEndpoint : EndpointM
  mutFnUrlParams : Option (List (String × ParamValue))

/-- mutationOptions(config?): destructures urlParams out of the config,
keeps the rest, and builds a mutationFn closing over the original endpoint
and urlParams. -/
def mutationOptionsImpl (captured : EndpointM)
    (urlParams : Option (List (String × ParamValue)))
    (rest : List (String × JValue)) : MutationOptsM :=
  { passthrough := rest, mutFnEndpoint := captured, mutFnUrlParams := urlParams }

/-- Running the queryFn produced by queryOptions: awaits the captured
endpoint's execute with the captured input and urlParams; a truthy result
error is rethrown via toError (a FeziError is an Error instance and is
rethrown as-is), otherwise the data is returned. -/
def runQueryFn (client : APIClientOptionsM) (q : QueryOptsM) (fo : Except Exn RawResponse) :
    Except Exn (Option JValue) :=
  match endpointExecute client q.queryFnEndpoint q.queryFnInput q.queryFnUrlParams fo with
  | .error e => .error e
  | .ok r =>
    match r.error with
    | some f => .error (.fezi f)
    | none => .ok r.data

/-- Running the mutationFn produced by mutationOptions on call-time
variables: same error translation as the queryFn. -/
def runMutationFn (client : APIClientOptionsM) (m : MutationOptsM) (callVars : Option JValue)
    (fo : Except Exn RawResponse) : Except Exn (Option JValue) :=
  match endpointExecute client m.mutFnEndpoint callVars m.mutFnUrlParams fo with
  | .error e => .error e
  | .ok r =>
    match r.error with
    | some f => .error (.fezi f)
    | none => .ok r.data

/-! Theorems. -/

/-- The declarative description of the query entries built from a params
mapping: null/undefined-valued keys excluded, the remaining values
string-coerced, in mapping iteration order. -/
def queryEntries (ps : List (String × ParamValue)) : List (String × String) :=
  ps.filterMap (fun kv =>
    match kv.2 with
    | .pnull => none
    | .pundef => none
    | v => some (kv.1, v.coerceString))

theorem foldl_queryEntries (ps : List (String × ParamValue)) (acc : List (String × String)) :
    ps.foldl (fun acc kv =>
      match kv.2 with
      | .pnull => acc
      | .pundef => acc
      | v => acc ++ [(kv.1, v.coerceString)]) acc = acc ++ queryEntries ps := by
  induction ps generalizing acc with
  | nil => simp [queryEntries]
  | cons kv rest ih =>
    obtain ⟨k, v⟩ := kv
    cases v <;> simp [queryEntries, List.filterMap_cons, ih]

/-- C4: for every params mapping passed to a request, every key whose value
is null or undefined is excluded from the query string, and every other key
appears with its value string-coerced, in mapping iteration order; in
particular the params page: 1, filter: null, sort: undefined against path
/users produce a URL ending in /users?page=1 and nothing else. -/
theorem buildUrl_params_filtering (opts : APIClientOptionsM) (config : ExecConfig)
    (ps : List (String × ParamValue)) (h : config.params = some ps) :
    (buildUrl opts config =
      if (searchParamsToString (queryEntries ps)).isEmpty then
        buildUrl opts { config with params := none }
      else
        buildUrl opts { config with params := none } ++ "?" ++
          searchParamsToString (queryEntries ps)) ∧
      buildUrl { url := "https://api.example.com" }
          { path := some "/users",
            params := some [("page", ParamValue.pnum 1), ("filter", ParamValue.pnull),
              ("sort", ParamValue.pundef)] } =
        "https://api.example.com/users?page=1" := by
  refine ⟨?_, by decide⟩
  by_cases hps : ps = []
  · subst hps
    unfold buildUrl
    rw [h]
    rfl
  · have hlen : 0 < ps.length := List.length_pos.mpr hps
    unfold buildUrl
    rw [h]
    simp only [gt_iff_lt, hlen, if_true]
    rw [foldl_queryEntries]
    simp

/-- C4 instantiated: the params mapping page: 1, filter: null about /users. -/
theorem buildUrl_params_filtering_witness :
    buildUrl { url := "http://h" }
        { path := some "/users", params := some [("page", ParamValue.pnum 1)] } =
      (if (searchParamsToString (queryEntries [("page", ParamValue.pnum 1)])).isEmpty then
        buildUrl { url := "http://h" } { path := some "/users", params := none }
      else
        buildUrl { url := "http://h" } { path := some "/users", params := none } ++ "?" ++
          searchParamsToString (queryEntries [("page", ParamValue.pnum 1)])) :=
  (buildUrl_params_filtering { url := "http://h" }
    { path := some "/users", params := some [("page", ParamValue.pnum 1)] }
    [("page", ParamValue.pnum 1)] rfl).1

/-- The base URL with every trailing slash removed: the reference point for
the claim that exactly one slash separates the base URL from the path. -/
def stripTrailingSlashes (s : String) : String :=
  String.mk (s.toList.reverse.dropWhile (fun c => c = '/')).reverse

/-- C8 counterexample: a base URL ending in a doubled slash keeps the second
slash, so the built URL contains two slashes between the base URL content
and the path, refuting the claim as stated. -/
theorem buildUrl_doubleslash_cex :
    buildUrl { url := "http://a//" } { path := some "users" } = "http://a//users" ∧
      "http://a//users" ≠ stripTrailingSlashes "http://a//" ++ "/" ++ "users" := by
  constructor
  · decide
  · decide

theorem normalizeBaseUrl_no_trailing (opts : APIClientOptionsM)
    (h : strEndsWith opts.url "//" = false) :
    strEndsWith (normalizeBaseUrl opts) "/" = false := by
  unfold normalizeBaseUrl
  cases h1 : strEndsWith opts.url "/" with
  | false => simpa using h1
  | true =>
    simp only [if_true]
    have h1' : ['/'] <:+ opts.url.toList := by
      unfold strEndsWith at h1
      simpa using h1
    obtain ⟨t, ht⟩ := h1'
    have hdrop : (strDropLast opts.url).toList = t := by
      unfold strDropLast
      show (opts.url.toList.dropLast) = t
      rw [← ht]
      simp
    unfold strEndsWith
    rw [show ("/" : String).toList = ['/'] from rfl, hdrop]
    simp only [decide_eq_false_iff_not]
    rintro ⟨u, hu⟩
    have hcontra : strEndsWith opts.url "//" = true := by
      unfold strEndsWith
      rw [show ("//" : String).toList = ['/', '/'] from rfl]
      simp only [decide_eq_true_eq]
      exact ⟨u, by rw [← ht, ← hu]; simp⟩
    rw [hcontra] at h
    exact absurd h (by simp)

/-- C8 amended: for every RouteConfig whose path does not start with a slash
(and is non-empty), provided the base URL does not end in a doubled slash,
the built URL is the normalized base URL (one trailing slash stripped),
exactly one slash, then the path: the junction has no doubled or missing
separator. -/
theorem buildUrl_single_separator (opts : APIClientOptionsM) (config : ExecConfig) (p : String)
    (hpath : config.path = some p) (hne : p ≠ "") (hns : strStartsWith p "/" = false)
    (hbp : opts.basePath = none) (hparams : config.params = none)
    (hurl : strEndsWith opts.url "//" = false) :
    buildUrl opts config = normalizeBaseUrl opts ++ "/" ++ p ∧
      strEndsWith (normalizeBaseUrl opts) "/" = false ∧
      strStartsWith p "/" = false := by
  refine ⟨?_, normalizeBaseUrl_no_trailing opts hurl, hns⟩
  unfold buildUrl
  rw [hpath, hbp, hparams]
  have hemp : p.isEmpty = false := by
    cases he : p.isEmpty
    · rfl
    · exact absurd ((String.isEmpty_iff p).mp he) hne
  simp [optStrTruthy, hemp, hns, String.append_assoc]

/-- C2: for every received HTTP response whose body decodes, regardless of
its status code, the client produces data, error: null, status, headers,
ok, response rather than failing — a 4xx/5xx response is not an error at
this layer; and a GET returning HTTP 404 with JSON body error: "Not found"
and no output schema makes Endpoint.execute return that payload as data
with error: null and status 404. -/
theorem clientExecute_any_status (opts : APIClientOptionsM) (config : ExecConfig)
    (resp : RawResponse) (d : JValue) (hjson : resp.json = .ok d) :
    (clientExecute opts config (.ok resp) =
      .ok { data :=
              if (buildOptions opts config).parseJson != some false && contentTypeIsJson resp
              then d else .jstr resp.text,
            error := none, status := resp.status, headers := resp.headers,
            ok := resp.ok, response := resp }) ∧
      endpointExecute { url := "http://h" } { config := { path := some "/users" } } none none
          (.ok { status := 404, ok := false, contentType := some "application/json",
                 json := .ok (.jobj [("error", .jstr "Not found")]) }) =
        .ok { data := some (.jobj [("error", .jstr "Not found")]), error := none,
              status := 404 } := by
  constructor
  · unfold clientExecute fetchRequest
    cases hc : (buildOptions opts config).parseJson != some false && contentTypeIsJson resp
    · simp [hc]
    · simp [hc, hjson]
  · rfl

/-- A concrete received 500 response with a JSON body, for instantiating C2. -/
def resp500 : RawResponse :=
  { status := 500, ok := false, contentType := some "application/json",
    json := .ok (.jstr "oops") }

/-- C2 instantiated: a received 500 response with a JSON body still comes
back as data with error: null. -/
theorem clientExecute_any_status_witness :
    clientExecute { url := "http://h" } { path := some "/users" } (.ok resp500) =
      .ok { data :=
              if (buildOptions { url := "http://h" } { path := some "/users" }).parseJson
                    != some false && contentTypeIsJson resp500
              then .jstr "oops" else .jstr resp500.text,
            error := none, status := resp500.status, headers := resp500.headers,
            ok := resp500.ok, response := resp500 } :=
  (clientExecute_any_status { url := "http://h" } { path := some "/users" }
    resp500 (.jstr "oops") rfl).1

/-- C1: whenever the network request or the output-schema validation throws,
Endpoint.execute does not raise: it returns data: null together with the
wrapped error and status error.status when that is a number, else 500; and
when the transport rejects, the returned error's message is the original
exception's message and its url is the fully built request URL. -/
theorem endpointExecute_error_shape (client : APIClientOptionsM) (ep : EndpointM)
    (input : Option JValue) (params : Option (List (String × ParamValue)))
    (vi : Option JValue) (hv : validateInputStep ep input = .ok vi) :
    (∀ ex : Exn,
      endpointExecute client ep input params (.error ex) =
        .ok { data := none,
              error := some { message := ex.wrapMessage,
                              url := buildUrl client (spreadConfig ep.config vi params),
                              options := .fetchOpts
                                (buildOptions client (spreadConfig ep.config vi params)),
                              status := none, data := none },
              status := 500 }) ∧
      (∀ (resp : RawResponse) (d : JValue) (s : SchemaM) (e : Exn),
        resp.json = .ok d → ep.outputSchema = some s →
        validateWithSchema
            (if (buildOptions client (spreadConfig ep.config vi params)).parseJson != some false
                  && contentTypeIsJson resp
              then d else .jstr resp.text) s true = .error e →
        endpointExecute client ep input params (.ok resp) =
          .ok { data := none, error := some (endpointWrapError ep e),
                status := errorStatusOf (endpointWrapError ep e) }) := by
  constructor
  · intro ex
    unfold endpointExecute
    rw [hv]
    simp [clientExecute, fetchRequest, endpointWrapError, errorStatusOf]
  · intro resp d s e hjson hout hval
    unfold endpointExecute
    rw [hv]
    unfold clientExecute fetchRequest
    cases hc : (buildOptions client (spreadConfig ep.config vi params)).parseJson != some false
        && contentTypeIsJson resp
    · rw [hc] at hval
      simp only [Bool.false_eq_true, if_false] at hval
      simp [hc, hout, hval]
    · rw [hc] at hval
      simp only [if_true] at hval
      simp [hc, hjson, hout, hval]

/-- C1 instantiated: a rejecting transport produces a returned (not thrown)
error record with status 500, the original message and the built URL. -/
theorem endpointExecute_error_shape_witness :
    validateInputStep { config := { path := some "/users" } } none = .ok none ∧
    endpointExecute { url := "http://h" } { config := { path := some "/users" } } none none
        (.error (.jsError "network down")) =
      .ok { data := none,
            error := some { message := Exn.wrapMessage (.jsError "network down"),
                            url := buildUrl { url := "http://h" }
                              (spreadConfig { path := some "/users" } none none),
                            options := .fetchOpts (buildOptions { url := "http://h" }
                              (spreadConfig { path := some "/users" } none none)),
                            status := none, data := none },
            status := 500 } :=
  ⟨rfl, (endpointExecute_error_shape { url := "http://h" } { config := { path := some "/users" } }
    none none none rfl).1 (.jsError "network down")⟩

/-- C3: when the input is truthy, an input schema is set and its chosen
validation capability throws, the exception propagates unchanged (the raw
validator exception) out of Endpoint.execute — never caught, wrapped or
converted into a record — and the result does not depend on the transport,
since validation happens before the network call. -/
theorem inputValidation_propagates (client : APIClientOptionsM) (ep : EndpointM)
    (input : Option JValue) (params : Option (List (String × ParamValue)))
    (iv : JValue) (s : SchemaM) (e : Exn)
    (hi : input = some iv) (ht : iv.truthy = true) (hs : ep.inputSchema = some s)
    (hval : validateWithSchema iv s true = .error e) :
    ∀ fetchOutcome, endpointExecute client ep input params fetchOutcome = .error e := by
  intro fetchOutcome
  unfold endpointExecute validateInputStep
  rw [hi, hs]
  simp [optTruthy, ht, hval, Except.map]

/-- C3 instantiated: a parse capability that throws makes execute reject
with that very exception, whatever the transport would have returned. -/
theorem inputValidation_propagates_witness :
    JValue.truthy (.jstr "x") = true ∧
    endpointExecute { url := "http://h" }
        { config := { path := some "/users" },
          inputSchema := some { parse := some (fun _ => .error (.jsError "invalid input")) } }
        (some (.jstr "x")) none (.ok { status := 200, ok := true }) =
      .error (.jsError "invalid input") :=
  ⟨rfl, inputValidation_propagates { url := "http://h" }
    { config := { path := some "/users" },
      inputSchema := some { parse := some (fun _ => .error (.jsError "invalid input")) } }
    (some (.jstr "x")) none (.jstr "x")
    { parse := some (fun _ => .error (.jsError "invalid input")) } (.jsError "invalid input")
    rfl rfl rfl rfl (.ok { status := 200, ok := true })⟩

/-- C9: for every request config whose body is a falsy value (0, empty
string, false, null) and any method, the client attaches no serialized
body; serialization happens exactly when the body is truthy and the
effective method is not in the case-sensitive list GET, HEAD — so a POST
whose body is 0 or the empty string is sent with no body, while a
lowercase method string get does get a body. -/
theorem buildOptions_body_serialization (opts : APIClientOptionsM) (config : ExecConfig) :
    (∀ b, config.body = some b → b.truthy = false → (buildOptions opts config).body = none) ∧
      ((buildOptions opts config).body.isSome = true →
        optTruthy config.body = true ∧
          (["GET", "HEAD"].contains (jsOrStr config.method "GET")) = false) ∧
      (buildOptions { url := "http://h" } { method := some "POST", body := some (.jnum 0) }).body
        = none ∧
      (buildOptions { url := "http://h" } { method := some "POST", body := some (.jstr "") }).body
        = none ∧
      (buildOptions { url := "http://h" } { method := some "get", body := some (.jnum 1) }).body
        = some (jsonStringify (.jnum 1)) := by
  refine ⟨?_, ?_, rfl, rfl, rfl⟩
  · intro b hb hbt
    unfold buildOptions
    rw [hb]
    simp [optTruthy, hbt]
  · intro hsome
    simp only [buildOptions] at hsome
    cases h1 : optTruthy config.body with
    | false =>
      rw [h1] at hsome
      simp at hsome
    | true =>
      cases h2 : List.contains ["GET", "HEAD"] (jsOrStr config.method "GET") with
      | false => exact ⟨rfl, rfl⟩
      | true =>
        rw [h1, h2] at hsome
        simp at hsome

/-- C9 instantiated: a POST with body 0 carries no serialized body. -/
theorem buildOptions_body_serialization_witness :
    (buildOptions { url := "http://h" }
      { method := some "POST", body := some (.jnum 0) }).body = none :=
  (buildOptions_body_serialization { url := "http://h" }
    { method := some "POST", body := some (.jnum 0) }).1 (.jnum 0) rfl rfl

/-- JavaScript optional-chaining disjunction on option values: the first
operand when present, else the second. -/
def optOr (a b : Option String) : Option String :=
  match a with
  | some v => some v
  | none => b

theorem recordGet_append (m m2 : List (String × String)) (k : String) :
    recordGet (m ++ m2) k = optOr (recordGet m k) (recordGet m2 k) := by
  induction m with
  | nil => simp [recordGet, optOr]
  | cons kv rest ih =>
    by_cases hk : kv.1 = k
    · simp [recordGet, hk, optOr]
    · simp [recordGet, hk, ih]

theorem optOr_none (a : Option String) : optOr a none = a := by
  cases a <;> rfl

theorem recordGet_none_of_not_mem (m : List (String × String)) (k : String)
    (h : k ∉ m.map Prod.fst) : recordGet m k = none := by
  induction m with
  | nil => rfl
  | cons kv rest ih =>
    obtain ⟨k1, v1⟩ := kv
    have h1 : k1 ≠ k := fun he => h (by simp [he])
    have h2 : k ∉ rest.map Prod.fst := fun hm => h (by simp [hm])
    simp [recordGet, h1, ih h2]

theorem recordGet_map_replace (m : List (String × String)) (k v : String) :
    recordGet (m.map (fun kv => if kv.1 = k then (k, v) else kv)) k =
      if m.any (fun kv => kv.1 = k) then some v else none := by
  induction m with
  | nil => simp [recordGet]
  | cons kv rest ih =>
    obtain ⟨k1, v1⟩ := kv
    by_cases hk : k1 = k
    · simp [recordGet, hk]
    · simp only [List.map_cons, List.any_cons]
      rw [show ((if (k1, v1).1 = k then (k, v) else (k1, v1)) = (k1, v1)) from by simp [hk]]
      simp only [recordGet, hk, if_false, ih]
      rw [show (decide False || rest.any fun kv => decide (kv.1 = k))
          = (rest.any fun kv => decide (kv.1 = k)) from by simp]

theorem recordGet_set_same (m : List (String × String)) (k v : String) :
    recordGet (recordSet m k v) k = some v := by
  unfold recordSet
  cases ha : m.any (fun kv => kv.1 = k) with
  | true => simp [ha, recordGet_map_replace]
  | false =>
    have hnm : k ∉ m.map Prod.fst := by
      intro hm
      obtain ⟨kv, hkv, hfst⟩ := List.mem_map.mp hm
      have : m.any (fun kv => kv.1 = k) = true :=
        List.any_eq_true.mpr ⟨kv, hkv, by simp [hfst]⟩
      rw [this] at ha
      cases ha
    simp [ha, recordGet_append, recordGet_none_of_not_mem m k hnm, recordGet, optOr]

theorem recordGet_map_replace_other (m : List (String × String)) (k k2 v : String)
    (hne : k2 ≠ k) :
    recordGet (m.map (fun kv => if kv.1 = k2 then (k2, v) else kv)) k = recordGet m k := by
  induction m with
  | nil => rfl
  | cons kv rest ih =>
    obtain ⟨k1, v1⟩ := kv
    by_cases hk : k1 = k2
    · have hk1 : k1 ≠ k := by rw [hk]; exact hne
      simp only [List.map_cons]
      rw [show ((if (k1, v1).1 = k2 then (k2, v) else (k1, v1)) = (k2, v)) from by simp [hk]]
      simp [recordGet, hne, hk1, ih]
    · simp only [List.map_cons]
      rw [show ((if (k1, v1).1 = k2 then (k2, v) else (k1, v1)) = (k1, v1)) from by simp [hk]]
      by_cases hkk : k1 = k
      · simp [recordGet, hkk]
      · simp [recordGet, hkk, ih]

theorem recordGet_set_other (m : List (String × String)) (k k2 v : String) (hne : k2 ≠ k) :
    recordGet (recordSet m k2 v) k = recordGet m k := by
  unfold recordSet
  cases ha : m.any (fun kv => kv.1 = k2) with
  | true => simp [ha, recordGet_map_replace_other m k k2 v hne]
  | false =>
    rw [if_neg (by simp [ha]), recordGet_append]
    rw [show recordGet [(k2, v)] k = none from by simp [recordGet, hne]]
    exact optOr_none _

theorem recordGet_spread (base entries : List (String × String)) (k : String)
    (hnd : (entries.map Prod.fst).Nodup) :
    recordGet (recordSpread base entries) k =
      optOr (recordGet entries k) (recordGet base k) := by
  induction entries generalizing base with
  | nil => simp [recordSpread, recordGet, optOr]
  | cons kv rest ih =>
    obtain ⟨k2, v⟩ := kv
    have hnd2 : (rest.map Prod.fst).Nodup := (List.nodup_cons.mp hnd).2
    have hnotin : k2 ∉ rest.map Prod.fst := by
      have := (List.nodup_cons.mp hnd).1
      simpa using this
    show recordGet (recordSpread (recordSet base k2 v) rest) k = _
    rw [ih (recordSet base k2 v) hnd2]
    by_cases hk : k2 = k
    · subst hk
      rw [recordGet_none_of_not_mem rest k2 hnotin]
      simp [recordGet, recordGet_set_same, optOr]
    · simp [recordGet, hk, recordGet_set_other base k k2 v hk]

/-- C5: for every header merge performed by the client, the effective value
of a key is the request-level header when present, else the client-level
default, else the built-in Content-Type: application/json — a request
header always beats a client default and both beat the built-in default —
whether the defaults are a static mapping, a synchronous producer or an
asynchronous producer. -/
theorem mergeHeaders_priority (opts : APIClientOptionsM) (request : List (String × String))
    (k : String) (hnd : ((resolveDefaultHeaders opts.headers).map Prod.fst).Nodup)
    (hnr : (request.map Prod.fst).Nodup) :
    recordGet (mergeHeaders opts (some request)) k =
      optOr (recordGet request k)
        (optOr (recordGet (resolveDefaultHeaders opts.headers) k)
          (if "Content-Type" = k then some "application/json" else none)) := by
  show recordGet (recordSpread
    (recordSpread [("Content-Type", "application/json")] (resolveDefaultHeaders opts.headers))
    request) k = _
  rw [recordGet_spread _ _ _ hnr, recordGet_spread _ _ _ hnd]
  simp [recordGet]

/-- C5 instantiated: an asynchronous header producer whose mapping collides
with both the request headers and the built-in Content-Type. -/
theorem mergeHeaders_priority_witness :
    ((resolveDefaultHeaders (some (.asyncProducer
        (fun _ => [("Content-Type", "text/plain"), ("X-A", "1")])))).map Prod.fst).Nodup ∧
    recordGet (mergeHeaders
        { url := "http://h",
          headers := some (.asyncProducer
            (fun _ => [("Content-Type", "text/plain"), ("X-A", "1")])) }
        (some [("X-A", "2")])) "X-A" =
      optOr (recordGet [("X-A", "2")] "X-A")
        (optOr (recordGet (resolveDefaultHeaders (some (.asyncProducer
            (fun _ => [("Content-Type", "text/plain"), ("X-A", "1")])))) "X-A")
          (if "Content-Type" = "X-A" then some "application/json" else none)) :=
  ⟨by decide, mergeHeaders_priority
    { url := "http://h",
      headers := some (.asyncProducer
        (fun _ => [("Content-Type", "text/plain"), ("X-A", "1")])) }
    [("X-A", "2")] "X-A" (by decide) (by decide)⟩

theorem createClientAPI_keys_subset (router : List (String × RouterVal)) (k : String)
    (h : k ∈ (createClientAPI router).map Prod.fst) : k ∈ router.map Prod.fst := by
  induction router with
  | nil => simp [createClientAPI] at h
  | cons kv rest ih =>
    obtain ⟨k1, v⟩ := kv
    cases v with
    | endpoint e =>
      simp only [createClientAPI, List.map_cons, List.mem_cons] at h ⊢
      rcases h with h | h
      · exact Or.inl h
      · exact Or.inr (ih h)
    | node cs =>
      simp only [createClientAPI, List.map_cons, List.mem_cons] at h ⊢
      rcases h with h | h
      · exact Or.inl h
      · exact Or.inr (ih h)
    | jsnull =>
      simp only [createClientAPI, List.map_cons, List.mem_cons] at h ⊢
      rcases h with h | h
      · exact Or.inl h
      · exact Or.inr (ih h)
    | prim p =>
      simp only [createClientAPI] at h
      simp only [List.map_cons, List.mem_cons]
      exact Or.inr (ih h)

theorem apiGet_none_of_not_mem (m : List (String × APIVal)) (k : String)
    (h : k ∉ m.map Prod.fst) : apiGet m k = none := by
  induction m with
  | nil => rfl
  | cons kv rest ih =>
    obtain ⟨k1, v1⟩ := kv
    have h1 : k1 ≠ k := fun he => h (by simp [he])
    have h2 : k ∉ rest.map Prod.fst := fun hm => h (by simp [hm])
    simp [apiGet, h1, ih h2]

theorem createClientAPI_lookup (router : List (String × RouterVal))
    (hnd : (router.map Prod.fst).Nodup) (k : String) :
    apiGet (createClientAPI router) k = (routerGet router k).bind composeVal := by
  induction router with
  | nil => simp [createClientAPI, apiGet, routerGet]
  | cons kv rest ih =>
    obtain ⟨k1, v⟩ := kv
    have hnd2 : (rest.map Prod.fst).Nodup := (List.nodup_cons.mp hnd).2
    have hnotin : k1 ∉ rest.map Prod.fst := by
      have := (List.nodup_cons.mp hnd).1
      simpa using this
    by_cases hk : k1 = k
    · subst hk
      cases v with
      | endpoint e => simp [createClientAPI, apiGet, routerGet, composeVal]
      | node cs => simp [createClientAPI, apiGet, routerGet, composeVal]
      | jsnull => simp [createClientAPI, apiGet, routerGet, composeVal]
      | prim p =>
        have hnone : apiGet (createClientAPI rest) k1 = none := by
          apply apiGet_none_of_not_mem
          intro hmem
          exact hnotin (createClientAPI_keys_subset rest k1 hmem)
        simp [createClientAPI, routerGet, composeVal, hnone]
    · cases v with
      | endpoint e => simp [createClientAPI, apiGet, routerGet, hk, ih hnd2]
      | node cs => simp [createClientAPI, apiGet, routerGet, hk, ih hnd2]
      | jsnull => simp [createClientAPI, apiGet, routerGet, hk, ih hnd2]
      | prim p => simp [createClientAPI, routerGet, hk, ih hnd2]

/-- C6 counterexample: a non-object, non-Endpoint value is not passed
through unchanged into the resulting tree — its key is simply absent. -/
theorem createClientAPI_prim_dropped_cex :
    createClientAPI [("count", RouterVal.prim (.pnum 100))] = [] ∧
      apiGet (createClientAPI [("count", RouterVal.prim (.pnum 100))]) "count" = none ∧
      ("count", APIVal.prim (.pnum 100)) ∉
        createClientAPI [("count", RouterVal.prim (.pnum 100))] := by
  refine ⟨?_, ?_, ?_⟩ <;> simp [createClientAPI, apiGet]

/-- C6 amended: for every RouterNode mapping, an Endpoint value becomes a
bound function forwarding to that endpoint's execute, a plain mapping is
recursed into, a null value becomes an empty subtree, and a value of any
other type is skipped — its key is absent from the resulting tree (it is
not passed through). -/
theorem createClientAPI_maps_values (router : List (String × RouterVal))
    (hnd : (router.map Prod.fst).Nodup) (k : String) :
    (apiGet (createClientAPI router) k = (routerGet router k).bind composeVal) ∧
      (∀ e, routerGet router k = some (.endpoint e) →
        apiGet (createClientAPI router) k = some (.call e) ∧
          ∀ client input params fo,
            (apiGet (createClientAPI router) k).bind
                (fun a => a.runCall client input params fo) =
              some (endpointExecute client e input params fo)) ∧
      (∀ cs, routerGet router k = some (.node cs) →
        apiGet (createClientAPI router) k = some (.node (createClientAPI cs))) ∧
      (∀ p, routerGet router k = some (.prim p) →
        apiGet (createClientAPI router) k = none) := by
  have hchar := createClientAPI_lookup router hnd k
  refine ⟨hchar, ?_, ?_, ?_⟩
  · intro e he
    rw [hchar, he]
    exact ⟨rfl, fun client input params fo => rfl⟩
  · intro cs hcs
    rw [hchar, hcs]
    rfl
  · intro p hp
    rw [hchar, hp]
    rfl

/-- C6 amended, instantiated: in a mapping with an endpoint under one key
and the number 100 under another, the number's key is absent from the
composed tree. -/
theorem createClientAPI_maps_values_witness :
    apiGet (createClientAPI
        [("users", RouterVal.endpoint {}), ("count", RouterVal.prim (.pnum 100))]) "count" =
      none :=
  (createClientAPI_maps_values
    [("users", RouterVal.endpoint {}), ("count", RouterVal.prim (.pnum 100))]
    (by decide) "count").2.2.2 (.pnum 100) rfl

theorem jlookup_isSome_of_mem_keys (ps : List (String × JValue)) (k : String)
    (h : k ∈ ps.map Prod.fst) : ∃ v, jlookup ps k = some v := by
  induction ps with
  | nil => simp at h
  | cons kv rest ih =>
    obtain ⟨k1, v1⟩ := kv
    by_cases hk : k1 = k
    · exact ⟨v1, by simp [jlookup, hk]⟩
    · have h2 : k ∈ rest.map Prod.fst := by
        simp only [List.map_cons, List.mem_cons] at h
        rcases h with he | hm
        · exact absurd he.symm hk
        · exact hm
      obtain ⟨v, hv⟩ := ih h2
      exact ⟨v, by simp [jlookup, hk, hv]⟩

theorem mem_of_jlookup_eq_some (ps : List (String × JValue)) (k : String) (v : JValue)
    (h : jlookup ps k = some v) : (k, v) ∈ ps := by
  induction ps with
  | nil => cases h
  | cons kv rest ih =>
    obtain ⟨k1, v1⟩ := kv
    by_cases hk : k1 = k
    · subst hk
      have h2 : v1 = v := by simpa [jlookup] using h
      subst h2
      exact List.mem_cons_self _ _
    · simp only [jlookup, hk, if_false] at h
      exact List.mem_cons_of_mem _ (ih h)

theorem jlookup_eq_some_of_mem (ps : List (String × JValue)) (k : String) (v : JValue)
    (hnd : (ps.map Prod.fst).Nodup) (hm : (k, v) ∈ ps) : jlookup ps k = some v := by
  induction ps with
  | nil => cases hm
  | cons kv rest ih =>
    obtain ⟨k1, v1⟩ := kv
    have hnd2 : (rest.map Prod.fst).Nodup := (List.nodup_cons.mp hnd).2
    have hnotin : k1 ∉ rest.map Prod.fst := by
      have := (List.nodup_cons.mp hnd).1
      simpa using this
    rcases List.mem_cons.mp hm with he | hm2
    · have hk : k = k1 := congrArg Prod.fst he
      have hv : v = v1 := congrArg Prod.snd he
      subst hk
      subst hv
      simp [jlookup]
    · have hk : k1 ≠ k := by
        intro he2
        subst he2
        exact hnotin (List.mem_map.mpr ⟨(k1, v), hm2, rfl⟩)
      simp [jlookup, hk, ih hnd2 hm2]

theorem jlookup_perm (ps1 ps2 : List (String × JValue)) (k : String)
    (hnd : (ps1.map Prod.fst).Nodup) (hperm : ps1.Perm ps2) :
    jlookup ps1 k = jlookup ps2 k := by
  have hnd2 : (ps2.map Prod.fst).Nodup := (hperm.map Prod.fst).nodup_iff.mp hnd
  cases h1 : jlookup ps1 k with
  | some v =>
    exact (jlookup_eq_some_of_mem ps2 k v hnd2
      (hperm.mem_iff.mp (mem_of_jlookup_eq_some ps1 k v h1))).symm
  | none =>
    cases h2 : jlookup ps2 k with
    | none => rfl
    | some v =>
      have := jlookup_eq_some_of_mem ps1 k v hnd
        (hperm.mem_iff.mpr (mem_of_jlookup_eq_some ps2 k v h2))
      rw [h1] at this
      cases this

theorem foldl_rebuild (ps : List (String × JValue)) (keys : List String)
    (acc : List (String × JValue)) :
    keys.foldl (fun acc k =>
      match jlookup ps k with
      | some v => acc ++ [(k, v)]
      | none => acc) acc =
      acc ++ keys.filterMap (fun k => (jlookup ps k).map (fun v => (k, v))) := by
  induction keys generalizing acc with
  | nil => simp
  | cons k rest ih =>
    cases h : jlookup ps k with
    | some v => simp [h, ih, List.filterMap_cons]
    | none => simp [h, ih, List.filterMap_cons]

theorem filterMap_jlookup_eq_map (ps : List (String × JValue)) (keys : List String)
    (h : ∀ k ∈ keys, ∃ v, jlookup ps k = some v) :
    keys.filterMap (fun k => (jlookup ps k).map (fun v => (k, v))) =
      keys.map (fun k => (k, (jlookup ps k).getD .jnull)) := by
  induction keys with
  | nil => rfl
  | cons k rest ih =>
    obtain ⟨v, hv⟩ := h k (List.mem_cons_self _ _)
    have ih2 := ih (fun k2 hk2 => h k2 (List.mem_cons_of_mem _ hk2))
    simp [List.filterMap_cons, hv, ih2]

theorem getKey_some (path : List String) (ps : List (String × JValue)) :
    getKey path (some ps) =
      if ps.length > 0 then
        (path.map KeyElem.str) ++
          [KeyElem.pobj ((List.insertionSort (fun a b => a ≤ b) (ps.map Prod.fst)).foldl
            (fun acc k =>
              match jlookup ps k with
              | some v => acc ++ [(k, v)]
              | none => acc) [])]
      else path.map KeyElem.str := rfl

theorem getKey_perm_invariant (path : List String) (ps1 ps2 : List (String × JValue))
    (hnd : (ps1.map Prod.fst).Nodup) (hperm : ps1.Perm ps2) :
    getKey path (some ps1) = getKey path (some ps2) := by
  have hkeysperm : (ps1.map Prod.fst).Perm (ps2.map Prod.fst) := hperm.map Prod.fst
  have hsortedeq : List.insertionSort (fun a b => a ≤ b) (ps1.map Prod.fst) =
      List.insertionSort (fun a b => a ≤ b) (ps2.map Prod.fst) :=
    List.eq_of_perm_of_sorted
      ((List.perm_insertionSort _ _).trans
        (hkeysperm.trans (List.perm_insertionSort _ _).symm))
      (List.sorted_insertionSort _ _)
      (List.sorted_insertionSort _ _)
  have hlen : ps1.length = ps2.length := hperm.length_eq
  rw [getKey_some, getKey_some, ← hlen]
  by_cases hl : ps1.length > 0
  · simp only [hl, if_true]
    rw [foldl_rebuild, foldl_rebuild, hsortedeq]
    have hfun : (fun k => (jlookup ps1 k).map (fun v => (k, v))) =
        (fun k => (jlookup ps2 k).map (fun v => (k, v))) := by
      funext k
      rw [jlookup_perm ps1 ps2 k hnd hperm]
    rw [hfun]
  · simp only [hl, if_false]

/-- C7: getKey on the TanStack-enhanced endpoint is order-independent in
the params: two mappings with the same key-value pairs yield equal cache
keys; the key is the path segments plus, for non-empty params, one final
element holding the params rebuilt with keys sorted; and in particular the
mappings b:2,a:1 and a:1,b:2 give equal keys. -/
theorem getKey_canonicalizes (path : List String) (ps1 ps2 : List (String × JValue))
    (hnd : (ps1.map Prod.fst).Nodup) (hperm : ps1.Perm ps2) :
    (getKey path (some ps1) = getKey path (some ps2)) ∧
      (ps1 ≠ [] → ∃ q, getKey path (some ps1) = path.map KeyElem.str ++ [KeyElem.pobj q] ∧
        q.Perm ps1 ∧ (q.map Prod.fst).Sorted (fun a b => a ≤ b)) ∧
      getKey ["users"] (some [("b", .jnum 2), ("a", .jnum 1)]) =
        getKey ["users"] (some [("a", .jnum 1), ("b", .jnum 2)]) := by
  refine ⟨getKey_perm_invariant path ps1 ps2 hnd hperm, ?_,
    getKey_perm_invariant ["users"] [("b", JValue.jnum 2), ("a", JValue.jnum 1)]
      [("a", JValue.jnum 1), ("b", JValue.jnum 2)] (by decide)
      (List.Perm.swap ("a", JValue.jnum 1) ("b", JValue.jnum 2) [])⟩
  intro hne
  have hl : ps1.length > 0 := List.length_pos.mpr hne
  have hall : ∀ k ∈ List.insertionSort (fun a b => a ≤ b) (ps1.map Prod.fst),
      ∃ v, jlookup ps1 k = some v := by
    intro k hk
    exact jlookup_isSome_of_mem_keys ps1 k
      ((List.perm_insertionSort _ _).mem_iff.mp hk)
  refine ⟨(List.insertionSort (fun a b => a ≤ b) (ps1.map Prod.fst)).map
    (fun k => (k, (jlookup ps1 k).getD JValue.jnull)), ?_, ?_, ?_⟩
  · rw [getKey_some]
    simp only [hl, if_true]
    rw [foldl_rebuild, filterMap_jlookup_eq_map ps1 _ hall]
    simp
  · have hmapid : (ps1.map Prod.fst).map
        (fun k => (k, (jlookup ps1 k).getD JValue.jnull)) = ps1 := by
      rw [List.map_map]
      have hcongr : ∀ kv ∈ ps1,
          ((fun k => (k, (jlookup ps1 k).getD JValue.jnull)) ∘ Prod.fst) kv = kv := by
        intro kv hkv
        obtain ⟨k, v⟩ := kv
        have := jlookup_eq_some_of_mem ps1 k v hnd hkv
        simp [this]
      rw [List.map_congr_left hcongr]
      exact List.map_id ps1
    have hstep := (List.perm_insertionSort (fun a b => a ≤ b) (ps1.map Prod.fst)).map
      (fun k => (k, (jlookup ps1 k).getD JValue.jnull))
    rw [hmapid] at hstep
    exact hstep
  · rw [List.map_map]
    have : (Prod.fst ∘ fun k => (k, (jlookup ps1 k).getD JValue.jnull)) = id := by
      funext k
      rfl
    rw [this, List.map_id]
    exact List.sorted_insertionSort _ _

/-- C7 instantiated: getKey on b:2,a:1 equals getKey on a:1,b:2. -/
theorem getKey_canonicalizes_witness :
    getKey ["users"] (some [("b", .jnum 2), ("a", .jnum 1)]) =
      getKey ["users"] (some [("a", .jnum 1), ("b", .jnum 2)]) :=
  (getKey_canonicalizes ["users"] [("b", JValue.jnum 2), ("a", JValue.jnum 1)]
    [("a", JValue.jnum 1), ("b", JValue.jnum 2)] (by decide)
    (List.Perm.swap ("a", JValue.jnum 1) ("b", JValue.jnum 2) [])).1

/-- C10: the TanStack enhancement is a shallow copy: the enhanced object
carries exactly the endpoint's own data fields plus queryOptions,
mutationOptions and getKey; execute is a prototype method, so the enhanced
object has no execute of its own; and the queryFn/mutationFn closures
capture the original endpoint by reference. -/
theorem enhanceEndpoint_shallow (e : EndpointM) (path : List String) :
    ((enhanceEndpoint e path).map Prod.fst =
      (endpointOwnProps e).map Prod.fst ++ ["queryOptions", "mutationOptions", "getKey"]) ∧
      ("execute" ∉ (enhanceEndpoint e path).map Prod.fst) ∧
      ("execute" ∈ endpointProtoMethods) ∧
      (propGet (enhanceEndpoint e path) "queryOptions" = some (.queryOptionsFn e path)) ∧
      (propGet (enhanceEndpoint e path) "mutationOptions" = some (.mutationOptionsFn e)) ∧
      (propGet (enhanceEndpoint e path) "getKey" = some (.getKeyFn path)) ∧
      (∀ input urlParams qk rest,
        (queryOptionsImpl e path input urlParams qk rest).queryFnEndpoint = e) ∧
      (∀ urlParams rest, (mutationOptionsImpl e urlParams rest).mutFnEndpoint = e) := by
  obtain ⟨cfg, is, os⟩ := e
  cases is <;> cases os <;>
    exact ⟨rfl, by simp [enhanceEndpoint, endpointOwnProps, propSet], by decide,
      rfl, rfl, rfl, fun _ _ _ _ => rfl, fun _ _ => rfl⟩

/-- C10 instantiated at a fresh endpoint and the path users, get. -/
theorem enhanceEndpoint_shallow_witness :
    propGet (enhanceEndpoint {} ["users", "get"]) "queryOptions" =
      some (.queryOptionsFn {} ["users", "get"]) :=
  (enhanceEndpoint_shallow {} ["users", "get"]).2.2.2.1

/-- C8 amended, instantiated at a concrete client and path. -/
theorem buildUrl_single_separator_witness :
    buildUrl { url := "https://api.example.com/" } { path := some "users" } =
        normalizeBaseUrl { url := "https://api.example.com/" } ++ "/" ++ "users" ∧
      strEndsWith (normalizeBaseUrl { url := "https://api.example.com/" }) "/" = false ∧
      strStartsWith "users" "/" = false :=
  buildUrl_single_separator { url := "https://api.example.com/" } { path := some "users" }
    "users" rfl (by decide) (by decide) rfl rfl (by decide)

end Fezi
